import Mathlib

/-!
Verification development for the cfb per-file build/run orchestrator
(src/make.rs, src/main.rs, src/cli.rs).

The Rust code is shallowly embedded:
* paths and commands are strings;
* byte streams are lists of naturals (each < 256 in practice);
* the external world (process spawning and its results) is an oracle
  function passed explicitly;
* the observable side effects (status lines, writes to the real
  stdout/stderr, the skip note) are collected as an explicit event trace;
* fallible operations return `Except String` mirroring `anyhow::Result`.
-/

namespace Cfb

/-- Byte sequences (stdout and stderr contents of children, piped input). -/
abbrev Bytes := List Nat

/-- Paths are modelled as plain strings (all paths in scope are valid
Unicode, so `to_string_lossy` is the identity on them). -/
abbrev Path := String

/-- The replacement character U+FFFD used by permissive UTF-8 decoding. -/
def replChar : Char := Char.ofNat 0xFFFD

/-- Is `b` a UTF-8 continuation byte (0x80..=0xBF)? -/
def isCont (b : Nat) : Bool := 0x80 ≤ b && b ≤ 0xBF

/-- Worker for permissive UTF-8 decoding, structurally recursive on a
fuel bound (any fuel at least the list length gives the decoding; each
step consumes at least one byte). -/
def utf8LossyGo : Nat → Bytes → List Char
  | 0, _ => []
  | _ + 1, [] => []
  | fl + 1, b :: rest =>
    if b < 0x80 then Char.ofNat b :: utf8LossyGo fl rest
    else if 0xC2 ≤ b && b ≤ 0xDF then
      match rest with
      | c :: rest2 =>
        if isCont c then
          Char.ofNat ((b - 0xC0) * 0x40 + (c - 0x80)) :: utf8LossyGo fl rest2
        else replChar :: utf8LossyGo fl (c :: rest2)
      | [] => [replChar]
    else if 0xE0 ≤ b && b ≤ 0xEF then
      -- second-byte range depends on the leading byte (surrogate exclusion)
      let lo2 := if b = 0xE0 then 0xA0 else 0x80
      let hi2 := if b = 0xED then 0x9F else 0xBF
      match rest with
      | c :: rest2 =>
        if lo2 ≤ c && c ≤ hi2 then
          match rest2 with
          | d :: rest3 =>
            if isCont d then
              Char.ofNat ((b - 0xE0) * 0x1000 + (c - 0x80) * 0x40 + (d - 0x80))
                :: utf8LossyGo fl rest3
            else replChar :: utf8LossyGo fl (d :: rest3)
          | [] => [replChar]
        else replChar :: utf8LossyGo fl (c :: rest2)
      | [] => [replChar]
    else if 0xF0 ≤ b && b ≤ 0xF4 then
      let lo2 := if b = 0xF0 then 0x90 else 0x80
      let hi2 := if b = 0xF4 then 0x8F else 0xBF
      match rest with
      | c :: rest2 =>
        if lo2 ≤ c && c ≤ hi2 then
          match rest2 with
          | d :: rest3 =>
            if isCont d then
              match rest3 with
              | e :: rest4 =>
                if isCont e then
                  Char.ofNat ((b - 0xF0) * 0x40000 + (c - 0x80) * 0x1000
                      + (d - 0x80) * 0x40 + (e - 0x80)) :: utf8LossyGo fl rest4
                else replChar :: utf8LossyGo fl (e :: rest4)
              | [] => [replChar]
            else replChar :: utf8LossyGo fl (d :: rest3)
          | [] => [replChar]
        else replChar :: utf8LossyGo fl (c :: rest2)
      | [] => [replChar]
    else replChar :: utf8LossyGo fl rest

/-- Permissive UTF-8 decoding of a byte list into characters, modelling
Rust `String::from_utf8_lossy`: maximal valid sequences decode to their
code point, each maximal invalid subpart is replaced by U+FFFD
(WHATWG "substitution of maximal subparts", which is what Rust does). -/
def utf8Lossy (bs : Bytes) : List Char := utf8LossyGo bs.length bs

/-- `String::from_utf8_lossy` producing a string. -/
def utf8LossyStr (bs : Bytes) : String := String.mk (utf8Lossy bs)

/-- Characters the `shell_quote` crate leaves unquoted for `/bin/sh`. -/
def shSafeChar (c : Char) : Bool :=
  c.isAlphanum || c = Char.ofNat 0x2D || c = Char.ofNat 0x5F ||
  c = Char.ofNat 0x2E || c = Char.ofNat 0x2F || c = Char.ofNat 0x2C ||
  c = Char.ofNat 0x3A || c = Char.ofNat 0x40 || c = Char.ofNat 0x25 ||
  c = Char.ofNat 0x2B || c = Char.ofNat 0x3D

/-- A single quote character. -/
def squote : Char := Char.ofNat 0x27

/-- Model of `shell_quote::sh::quote` (a dependency of the source, used
in `format_command`): strings of safe characters pass through, anything
else is wrapped in single quotes with embedded single quotes escaped as
close-escape-reopen. No frozen claim depends on the exact quoting
algorithm; this model captures its shape. -/
def shQuote (s : String) : String :=
  if s = ("") then String.mk [squote, squote]
  else if s.data.all shSafeChar then s
  else
    String.mk
      (squote ::
        (s.data.flatMap fun c =>
          if c = squote then [squote, Char.ofNat 0x5C, squote, squote] else [c])
        ++ [squote])

/-- Opening curly brace character. -/
def braceO : Char := Char.ofNat 0x7B

/-- Closing curly brace character. -/
def braceC : Char := Char.ofNat 0x7D

/-- The placeholder substitution loop of the `SimpleCurlyFormat` of `dynfmt`
as used by `format_command`, as a one-pass scanner. The first argument is
the mode: `none` while copying literal characters, `some acc` while
inside a placeholder whose key characters so far are `acc`. A `\x7b`
enters placeholder mode; the matching `\x7d` looks the key up (an unknown
key, i.e. a missing argument, is an error) and splices the value; a
placeholder left unterminated at the end of the template is a parse
error. -/
def scanFS (look : String → Option String) :
    Option (List Char) → List Char → Option (List Char)
  | none, [] => some []
  | some _, [] => none
  | none, c :: rest =>
    if c = braceO then scanFS look (some []) rest
    else
      match scanFS look none rest with
      | none => none
      | some tail => some (c :: tail)
  | some acc, c :: rest =>
    if c = braceC then
      match look (String.mk acc) with
      | none => none
      | some v =>
        match scanFS look none rest with
        | none => none
        | some tail => some (v.data ++ tail)
    else scanFS look (some (acc ++ [c])) rest

/-- The four format arguments `format_command` inserts into its map
(make.rs lines 37-43): `source`/`output` shell-quoted, and the
`_unquoted` raw variants. -/
def formatLookup (source output : Path) (key : String) : Option String :=
  if key = ("source") then some (shQuote source)
  else if key = ("output") then some (shQuote output)
  else if key = ("source_unquoted") then some source
  else if key = ("output_unquoted") then some output
  else none

/-- `format_command` (make.rs lines 36-51): substitute the placeholders;
on any `dynfmt` error the underlying error is printed to stderr and the
returned failure is the constant message `Invalid format string`. -/
def format_command (command : String) (source output : Path) : Except String String :=
  match scanFS (formatLookup source output) none command.data with
  | none => Except.error ("Invalid format string")
  | some cs => Except.ok (String.mk cs)

/-- Per-path view of the filesystem used by the staleness check: whether
the path exists, and the result of the `metadata()?.modified()?` chain
(`none` when either call fails, i.e. the timestamp cannot be read). -/
structure FileInfo where
  present : Bool
  mtime : Option Nat
deriving Repr, DecidableEq

/-- The filesystem as a map from paths to their metadata view. -/
abbrev FS := Path → FileInfo

/-- `is_output_up_to_date` (make.rs lines 125-133): false when the output
does not exist; otherwise `source mtime <= output mtime`, with any
metadata error collapsed to false by `unwrap_or(false)`. -/
def is_output_up_to_date (fs : FS) (source output : Path) : Bool :=
  if !(fs output).present then false
  else
    match (fs source).mtime, (fs output).mtime with
    | some s, some o => decide (s ≤ o)
    | _, _ => false

/-- Result of a completed child process: `status = some c` models exiting
with code `c`, `status = none` models termination by a signal (Rust
`ExitStatus::code()` returns `None` there); plus the captured stdout and
stderr byte streams. -/
structure ExecResult where
  status : Option Int
  stdout : Bytes
  stderr : Bytes
deriving Repr, DecidableEq

/-- `ExitStatus::success()`: exited with code zero. -/
def ExecResult.success (r : ExecResult) : Bool := r.status = some 0

/-- The external world: what happens when `/bin/sh -c command` is spawned
with the given optional piped stdin contents. `Except.error` models a
spawn or I/O failure (`spawn()?`, `io::copy(..)?`, `output()?`). -/
abbrev World := String → Option Bytes → Except String ExecResult

/-- Observable side effects of the orchestrator, in order: the command
echo line, an actual child-process execution, writes of captured bytes to
the real stdout/stderr, the skip note, and the build/run task banner. -/
inductive Event where
  | echo (cmd : String)
  | execEv (cmd : String) (stdin : Option Bytes)
  | writeOut (b : Bytes)
  | writeErr (b : Bytes)
  | skip
  | task (kind : String) (src : Path)
deriving Repr, DecidableEq

/-- Debug rendering of `Option<i32>`, as produced by the `{:?}` format
specifier in the failure message of `run_command`. -/
def optionDebug : Option Int → String
  | none => ("None")
  | some n => ("Some(") ++ toString n ++ (")")

/-- The exact failure message built at make.rs lines 113-117. -/
def commandFailedMsg (cmd : String) (code : Option Int) : String :=
  ("Command failed: `") ++ cmd ++ ("` (exit code ") ++ optionDebug code ++ (")")

/-- `run_command` (make.rs lines 85-123): echo the command, spawn it
(piping `stdin` when supplied), and on completion either fail — after
writing the captured stdout/stderr to the real streams — with the
command-failure message, or return the permissively decoded
stdout-then-stderr concatenation. -/
def run_command (w : World) (cmd : String) (stdin : Option Bytes) :
    List Event × Except String String :=
  match w cmd stdin with
  | Except.error e => ([Event.echo cmd, Event.execEv cmd stdin], Except.error e)
  | Except.ok r =>
    if r.success then
      ([Event.echo cmd, Event.execEv cmd stdin],
       Except.ok (utf8LossyStr r.stdout ++ utf8LossyStr r.stderr))
    else
      ([Event.echo cmd, Event.execEv cmd stdin,
        Event.writeOut r.stdout, Event.writeErr r.stderr],
       Except.error (commandFailedMsg cmd r.status))

/-- `LanguageConfig` (make.rs lines 16-20): ordered compile command
templates and one run command template. -/
structure LanguageConfig where
  compile_commands : List String
  run_command : String
deriving Repr, DecidableEq

/-- `Config` (make.rs lines 24-28). The language table is an association
list keyed by extension; `List.lookup` returns the first binding, which
matches the uniquely keyed entries of the map. -/
structure Config where
  langs : List (String × LanguageConfig)
  default_stdin : Option String
deriving Repr, DecidableEq

/-- The `for command in commands` loop of `LanguageConfig::build`
(make.rs lines 153-155): run each command with no piped stdin, stopping
at the first failure, whose error is propagated unchanged by `?`. -/
def runAll (w : World) : List String → List Event × Except String Unit
  | [] => ([], Except.ok ())
  | c :: rest =>
    match run_command w c none with
    | (evs, Except.error e) => (evs, Except.error e)
    | (evs, Except.ok _) =>
      match runAll w rest with
      | (evs2, r2) => (evs ++ evs2, r2)

/-- `LanguageConfig::format_compile_commands` (make.rs lines 136-141):
format every compile command, collecting into a single `Result`, so the
first formatting error aborts with no command formatted. -/
def LanguageConfig.format_compile_commands (lc : LanguageConfig)
    (source output : Path) : Except String (List String) :=
  lc.compile_commands.mapM (fun c => format_command c source output)

/-- `LanguageConfig::format_run_command` (make.rs lines 143-145). -/
def LanguageConfig.format_run_command (lc : LanguageConfig)
    (source output : Path) : Except String String :=
  format_command lc.run_command source output

/-- `LanguageConfig::build` (make.rs lines 147-157): skip (with a status
note) when the output is up to date, otherwise format all compile
commands and run them in order. -/
def LanguageConfig.build (lc : LanguageConfig) (w : World) (fs : FS)
    (source output : Path) : List Event × Except String Unit :=
  if is_output_up_to_date fs source output then ([Event.skip], Except.ok ())
  else
    match lc.format_compile_commands source output with
    | Except.error e => ([], Except.error e)
    | Except.ok cmds => runAll w cmds

/-- `LanguageConfig::run` (make.rs lines 159-167): format the run
command, then execute it with the optional piped stdin. -/
def LanguageConfig.run (lc : LanguageConfig) (w : World)
    (source output : Path) (stdin : Option Bytes) :
    List Event × Except String String :=
  match lc.format_run_command source output with
  | Except.error e => ([], Except.error e)
  | Except.ok cmd => Cfb.run_command w cmd stdin

/-- Split a character list at every occurrence of `sep` (the separator
is dropped; like `str::split`, the result is never empty). -/
def splitOnChar (sep : Char) : List Char → List (List Char)
  | [] => [[]]
  | c :: rest =>
    let r := splitOnChar sep rest
    if c = sep then [] :: r
    else
      match r with
      | [] => [[c]]
      | h :: t => (c :: h) :: t

/-- Rust `Path::extension()` on our string paths: the part of the file
name (the last `/`-separated component) after its final dot, except that
a name with no dot, or whose only dot is its leading character (a hidden
file like `.gitignore`), has no extension. The special components `.`
and `..` are not modelled. -/
def extension (p : Path) : Option String :=
  let name := (splitOnChar (Char.ofNat 0x2F) p.data).getLastD []
  let parts := splitOnChar (Char.ofNat 0x2E) name
  match parts with
  | [] => none
  | [_] => none
  | [x, _] => if x = [] then none else some (String.mk (parts.getLastD []))
  | _ => some (String.mk (parts.getLastD []))

/-- `Config::build` (make.rs lines 177-193): resolve the extension and
its language entry (distinct errors when the extension is missing or has
no entry), print the build task banner, and delegate to
`LanguageConfig::build`. -/
def Config.build (cfg : Config) (w : World) (fs : FS)
    (source output : Path) : List Event × Except String Unit :=
  match extension source with
  | none => ([], Except.error ("No extension on source file"))
  | some e =>
    match List.lookup e cfg.langs with
    | none => ([], Except.error (("No language config for extension ") ++ e))
    | some lc =>
      match lc.build w fs source output with
      | (evs, r) => (Event.task ("build") source :: evs, r)

/-- `Config::run` (make.rs lines 194-210): resolve the extension and its
language entry exactly as `Config::build` does, then call `Config::build`
(propagating its failure), then print the run task banner and delegate to
`LanguageConfig::run` with the optional stdin. -/
def Config.run (cfg : Config) (w : World) (fs : FS)
    (source output : Path) (stdin : Option Bytes) :
    List Event × Except String String :=
  match extension source with
  | none => ([], Except.error ("No extension on source file"))
  | some e =>
    match List.lookup e cfg.langs with
    | none => ([], Except.error (("No language config for extension ") ++ e))
    | some lc =>
      match cfg.build w fs source output with
      | (evs, Except.error er) => (evs, Except.error er)
      | (evs, Except.ok _) =>
        match lc.run w source output stdin with
        | (evs2, r) => (evs ++ Event.task ("run") source :: evs2, r)

/-- One ancestor directory as seen by `load_config`: no `cfb.toml`, a
file that fails to parse (carrying its path for the error context), or a
parsed configuration. -/
inductive AncestorConfig where
  | absent
  | malformed (path : String)
  | parsed (cfg : Config)
deriving Repr, DecidableEq

/-- `configs.entry(language).or_insert(config)`: insert only when the key
is not yet bound. -/
def insertIfAbsent (m : List (String × LanguageConfig)) (k : String)
    (v : LanguageConfig) : List (String × LanguageConfig) :=
  if (List.lookup k m).isSome then m else m ++ [(k, v)]

/-- The loop body of `load_config` folded over the ancestors. -/
def loadConfigGo : List AncestorConfig → List (String × LanguageConfig) →
    Option String → Except String Config
  | [], acc, ds => Except.ok ⟨acc, ds⟩
  | AncestorConfig.absent :: rest, acc, ds => loadConfigGo rest acc ds
  | AncestorConfig.malformed p :: _, _, _ =>
    Except.error (("Failed to parse config file: ") ++ p)
  | AncestorConfig.parsed c :: rest, acc, ds =>
    loadConfigGo rest
      (c.langs.foldl (fun m kv => insertIfAbsent m kv.1 kv.2) acc)
      (ds <|> c.default_stdin)

/-- `load_config` (make.rs lines 53-83) over the ancestor directories of
the working directory, nearest first: parse each present `cfb.toml`
(a parse failure is fatal and names the file), merge language entries
first-wins via `entry(..).or_insert(..)`, and keep the first
`default_stdin` via `get_or_insert`. -/
def load_config (ancestors : List AncestorConfig) : Except String Config :=
  loadConfigGo ancestors [] none

/-- The description of resolution in the specification ("first — i.e.,
nearest-directory — definition wins"): the entry for an extension is the
one from the nearest ancestor that defines it. Stated from the words of the
specification, to be compared with `load_config`. -/
def firstDefinition : List AncestorConfig → String → Option LanguageConfig
  | [], _ => none
  | AncestorConfig.absent :: rest, e => firstDefinition rest e
  | AncestorConfig.malformed _ :: rest, e => firstDefinition rest e
  | AncestorConfig.parsed c :: rest, e =>
    (List.lookup e c.langs) <|> firstDefinition rest e

/-!
Pipe-interaction model for the piped-stdin mode of `run_command`
(make.rs lines 91-102). The schedule of the parent is taken from the source:
`io::copy(&mut stdin, &mut child_stdin)?` writes the whole input stream
into the stdin pipe of the child and returns only when done; only afterwards
does `child.wait_with_output()?` start draining the stdout pipe of the child.
Both pipes have a finite OS buffer capacity `cap`. The child is an
arbitrary program; the scenario child below writes `childPre` output
bytes before reading any input.
-/

/-- Progress counters of the parent/child pipe interaction: input bytes
written by the parent and consumed by the child, output bytes written by
the child and consumed by the parent. Pipe fill levels are the
differences. -/
structure PipeState where
  pw : Nat
  cr : Nat
  cw : Nat
  pr : Nat
deriving Repr, DecidableEq

/-- The four I/O moves: parent writes one input byte, parent reads one
output byte, child writes one output byte, child reads one input byte. -/
inductive Move where
  | pWrite
  | pRead
  | cWrite
  | cRead
deriving Repr, DecidableEq

/-- Whether a move is enabled.
`pWrite`: the parent is still inside `io::copy` and the stdin pipe has
room. `pRead`: per make.rs lines 100-102 the parent drains output only
once `io::copy` has written all `inSize` bytes — this conjunct `pw =
inSize` is the write-all-input-then-wait ordering of the source. `cWrite`:
the scenario child still has prelude output to write and the stdout pipe
has room. `cRead`: the scenario child reads input only after its whole
prelude is written, and a byte is available. -/
def moveEnabled (cap inSize childPre : Nat) (s : PipeState) : Move → Bool
  | Move.pWrite => decide (s.pw < inSize) && decide (s.pw - s.cr < cap)
  | Move.pRead => decide (s.pw = inSize) && decide (s.pr < s.cw)
  | Move.cWrite => decide (s.cw < childPre) && decide (s.cw - s.pr < cap)
  | Move.cRead => decide (s.cw = childPre) && decide (s.cr < s.pw)

/-- Effect of a move on the counters. -/
def applyMove : Move → PipeState → PipeState
  | Move.pWrite, s => { s with pw := s.pw + 1 }
  | Move.pRead, s => { s with pr := s.pr + 1 }
  | Move.cWrite, s => { s with cw := s.cw + 1 }
  | Move.cRead, s => { s with cr := s.cr + 1 }

/-- Run a schedule of moves, failing if a move is taken while disabled. -/
def runMoves (cap inSize childPre : Nat) : List Move → PipeState → Option PipeState
  | [], s => some s
  | m :: ms, s =>
    if moveEnabled cap inSize childPre s m then
      runMoves cap inSize childPre ms (applyMove m s)
    else none

/-- The interaction has completed: all input written and consumed, all
of the output of the child written and drained. -/
def pipesDone (inSize childPre : Nat) (s : PipeState) : Bool :=
  decide (s.pw = inSize) && decide (s.cr = inSize) &&
  decide (s.cw = childPre) && decide (s.pr = childPre)

/-- Deadlock: no move is enabled, yet the interaction has not completed. -/
def deadlocked (cap inSize childPre : Nat) (s : PipeState) : Bool :=
  (Move.pWrite :: Move.pRead :: Move.cWrite :: [Move.cRead]).all
      (fun m => !moveEnabled cap inSize childPre s m)
    && !pipesDone inSize childPre s

/-- Concrete fixture: a filesystem on which nothing exists (every build
is stale). -/
def fsAbsent : FS := fun _ => ⟨false, none⟩

/-- Concrete fixture: a world where every command succeeds printing one
byte to stdout and one to stderr. -/
def wEcho : World := fun _ _ => Except.ok ⟨some 0, [0x68], [0x21]⟩

/-- Concrete fixture: a configuration with a single entry for extension
`c` having no compile commands. -/
def cfgC : Config := ⟨[(("c"), ⟨[], ("run {source}")⟩)], none⟩

/-!
Theorems. Shared characterization lemmas come first, then one theorem
per claim of the specification, each with its witness or counterexample.
-/

theorem run_command_events_of_ok {w : World} {cmd : String} {stdin : Option Bytes}
    (h : (run_command w cmd stdin).2.isOk = true) :
    (run_command w cmd stdin).1 = [Event.echo cmd, Event.execEv cmd stdin] := by
  cases hw : w cmd stdin with
  | error e => simp [run_command, hw, Except.isOk, Except.toBool] at h
  | ok r =>
    by_cases hs : r.success
    · simp [run_command, hw, hs]
    · simp [run_command, hw, hs, Except.isOk, Except.toBool] at h

theorem runAll_all_ok {w : World} {cmds : List String}
    (h : ∀ c ∈ cmds, (run_command w c none).2.isOk = true) :
    runAll w cmds
      = (cmds.flatMap (fun c => [Event.echo c, Event.execEv c none]), Except.ok ()) := by
  induction cmds with
  | nil => simp [runAll]
  | cons c rest ih =>
    have hc := h c (by simp)
    cases hP : run_command w c none with
    | mk evs r =>
      cases r with
      | error e => rw [hP] at hc; simp [Except.isOk, Except.toBool] at hc
      | ok v =>
        have hevs : evs = [Event.echo c, Event.execEv c none] := by
          have := @run_command_events_of_ok w c none
            (by rw [hP]; simp [Except.isOk, Except.toBool])
          rw [hP] at this
          exact this
        have hrest := ih (fun x hx => h x (by simp [hx]))
        simp [runAll, hP, hrest, hevs]

theorem runAll_first_error {w : World} {us : List String} {c : String}
    {vs : List String} {e : String}
    (hus : ∀ x ∈ us, (run_command w x none).2.isOk = true)
    (hc : (run_command w c none).2 = Except.error e) :
    runAll w (us ++ c :: vs)
      = (us.flatMap (fun x => [Event.echo x, Event.execEv x none])
           ++ (run_command w c none).1,
         Except.error e) := by
  induction us with
  | nil =>
    cases hP : run_command w c none with
    | mk evs r =>
      rw [hP] at hc
      simp at hc
      subst hc
      simp [runAll, hP]
  | cons u us ih =>
    have hu := hus u (by simp)
    cases hP : run_command w u none with
    | mk evs r =>
      cases r with
      | error e2 => rw [hP] at hu; simp [Except.isOk, Except.toBool] at hu
      | ok v =>
        have hevs : evs = [Event.echo u, Event.execEv u none] := by
          have := @run_command_events_of_ok w u none
            (by rw [hP]; simp [Except.isOk, Except.toBool])
          rw [hP] at this
          exact this
        have hrest := ih (fun x hx => hus x (by simp [hx]))
        simp [runAll, hP, hrest, hevs]

/-- C3: `is_output_up_to_date` is false when the output path does not
exist, false when the modification timestamp of either file cannot be
read, and otherwise true exactly when the modification time of the
output is at least that of the source. -/
theorem is_up_to_date_contract (fs : FS) (source output : Path) :
    ((fs output).present = false → is_output_up_to_date fs source output = false)
  ∧ ((fs source).mtime = none → is_output_up_to_date fs source output = false)
  ∧ ((fs output).mtime = none → is_output_up_to_date fs source output = false)
  ∧ (∀ s o, (fs output).present = true → (fs source).mtime = some s →
      (fs output).mtime = some o →
      (is_output_up_to_date fs source output = true ↔ s ≤ o)) := by
  refine ⟨fun h => ?_, fun h => ?_, fun h => ?_, fun s o hp hs ho => ?_⟩
  · simp [is_output_up_to_date, h]
  · cases hp : (fs output).present <;>
      cases ho : (fs output).mtime <;>
      simp [is_output_up_to_date, h, hp, ho]
  · cases hp : (fs output).present <;>
      cases hs : (fs source).mtime <;>
      simp [is_output_up_to_date, h, hp, hs]
  · simp [is_output_up_to_date, hp, hs, ho]

theorem is_up_to_date_contract_witness :
    ((fun p => if p = ("a.c") then (⟨true, some 3⟩ : FileInfo) else ⟨true, some 5⟩)
        ("cfb-out/a")).present = true
  ∧ ((fun p => if p = ("a.c") then (⟨true, some 3⟩ : FileInfo) else ⟨true, some 5⟩)
        ("a.c")).mtime = some 3
  ∧ ((fun p => if p = ("a.c") then (⟨true, some 3⟩ : FileInfo) else ⟨true, some 5⟩)
        ("cfb-out/a")).mtime = some 5
  ∧ (is_output_up_to_date
        (fun p => if p = ("a.c") then (⟨true, some 3⟩ : FileInfo) else ⟨true, some 5⟩)
        ("a.c") ("cfb-out/a") = true ↔ 3 ≤ 5) :=
  ⟨by decide, by decide, by decide,
   (is_up_to_date_contract
      (fun p => if p = ("a.c") then (⟨true, some 3⟩ : FileInfo) else ⟨true, some 5⟩)
      ("a.c") ("cfb-out/a")).2.2.2 3 5 (by decide) (by decide) (by decide)⟩

/-- C10: the resolved default-input template is dead state for build and
run — two configurations with the same language table but any two
`default_stdin` values produce identical build and run behavior, for
every world, filesystem, path pair and caller-supplied input stream. -/
theorem default_stdin_no_influence (l : List (String × LanguageConfig))
    (d1 d2 : Option String) (w : World) (fs : FS) (source output : Path)
    (stdin : Option Bytes) :
    Config.run ⟨l, d1⟩ w fs source output stdin
        = Config.run ⟨l, d2⟩ w fs source output stdin
  ∧ Config.build ⟨l, d1⟩ w fs source output
        = Config.build ⟨l, d2⟩ w fs source output :=
  ⟨rfl, rfl⟩

/-- C5: on a successful execution (exit status zero) the returned string
is the permissive UTF-8 decoding of all stdout bytes followed by the
permissive decoding of all stderr bytes — pure concatenation, never
interleaving; invalid byte sequences are replaced (U+FFFD), never an
error. -/
theorem success_output_concat (w : World) (cmd : String) (stdin : Option Bytes)
    (r : ExecResult) (hw : w cmd stdin = Except.ok r) (hs : r.status = some 0) :
    (run_command w cmd stdin).2
        = Except.ok (utf8LossyStr r.stdout ++ utf8LossyStr r.stderr)
  ∧ utf8LossyStr [0xFF, 0x61] = String.mk [replChar, Char.ofNat 0x61] := by
  constructor
  · simp [run_command, hw, ExecResult.success, hs]
  · rfl

theorem success_output_concat_witness :
    (fun _ _ => Except.ok ⟨some 0, [0x68, 0x69], [0x21]⟩ : World) ("./prog") none
      = Except.ok (⟨some 0, [0x68, 0x69], [0x21]⟩ : ExecResult)
  ∧ (⟨some 0, [0x68, 0x69], [0x21]⟩ : ExecResult).status = some 0
  ∧ (run_command
        (fun _ _ => Except.ok ⟨some 0, [0x68, 0x69], [0x21]⟩ : World)
        ("./prog") none).2
      = Except.ok (utf8LossyStr [0x68, 0x69] ++ utf8LossyStr [0x21]) :=
  ⟨rfl, rfl,
   (success_output_concat
      (fun _ _ => Except.ok ⟨some 0, [0x68, 0x69], [0x21]⟩ : World)
      ("./prog") none ⟨some 0, [0x68, 0x69], [0x21]⟩ rfl rfl).1⟩

/-- C6 counterexample: for a child terminated by a signal
(`ExitStatus::code()` is `None`), the error message renders the code with
the `{:?}` Debug formatter, producing the text `None`; the literal word
`unknown`, which the claim requires in place of the exit code, appears
nowhere in the message. -/
theorem signal_message_lacks_unknown :
    (run_command
        (fun _ _ => Except.ok ⟨none, [0x6F], [0x65]⟩ : World) ("./prog") none).2
      = Except.error ("Command failed: `./prog` (exit code None)")
  ∧ ¬ (("unknown").data <:+: ("Command failed: `./prog` (exit code None)").data) :=
  ⟨rfl, by decide⟩

/-- C6 as amended: on a nonzero exit status (or signal termination) the
executor first writes the captured stdout to its own stdout and the
captured stderr to its own stderr, then fails with an error carrying the
literal command string and the exit code rendered in Debug format —
`Some(code)` for a normal exit, `None` when terminated by a signal. -/
theorem failure_writes_then_reports (w : World) (cmd : String)
    (stdin : Option Bytes) (r : ExecResult)
    (hw : w cmd stdin = Except.ok r) (hf : r.success = false) :
    run_command w cmd stdin
      = ([Event.echo cmd, Event.execEv cmd stdin,
          Event.writeOut r.stdout, Event.writeErr r.stderr],
         Except.error (("Command failed: `") ++ cmd ++ ("` (exit code ")
           ++ (match r.status with
               | none => ("None")
               | some n => ("Some(") ++ toString n ++ (")")) ++ (")"))) := by
  cases hst : r.status with
  | none => simp [run_command, hw, hf, commandFailedMsg, optionDebug, hst]
  | some n => simp [run_command, hw, hf, commandFailedMsg, optionDebug, hst]

theorem failure_writes_then_reports_witness :
    (fun _ _ => Except.ok ⟨some 3, [0x6F], [0x65]⟩ : World) ("exit 3") none
      = Except.ok (⟨some 3, [0x6F], [0x65]⟩ : ExecResult)
  ∧ (⟨some 3, [0x6F], [0x65]⟩ : ExecResult).success = false
  ∧ run_command (fun _ _ => Except.ok ⟨some 3, [0x6F], [0x65]⟩ : World)
        ("exit 3") none
      = ([Event.echo ("exit 3"), Event.execEv ("exit 3") none,
          Event.writeOut [0x6F], Event.writeErr [0x65]],
         Except.error ("Command failed: `exit 3` (exit code Some(3))")) :=
  ⟨rfl, rfl, by
    have h := failure_writes_then_reports
      (fun _ _ => Except.ok ⟨some 3, [0x6F], [0x65]⟩ : World)
      ("exit 3") none ⟨some 3, [0x6F], [0x65]⟩ rfl rfl
    simpa using h⟩

/-- C8: the piped-stdin mode of `run_command` (make.rs lines 99-102)
follows the strict write-all-input-then-wait ordering: `io::copy` moves
the whole input stream into the stdin pipe of the child before
`wait_with_output` starts draining the output of the child. In the pipe model
this schedule reaches a deadlock on a run where both the input and the
output of the child exceed the OS pipe capacity (here capacity 1, input 2
bytes, child writing 2 output bytes before reading): after one parent
write and one child write, both pipes are full, the parent may not read
(its copy phase is unfinished), the child will not read (its output phase
is unfinished), and no move is enabled although the interaction is not
done — refuting the claim that output is drained concurrently with input
writing. -/
theorem copy_then_wait_deadlock :
    runMoves 1 2 2 [Move.pWrite, Move.cWrite] ⟨0, 0, 0, 0⟩ = some ⟨1, 0, 1, 0⟩
  ∧ deadlocked 1 2 2 ⟨1, 0, 1, 0⟩ = true
  ∧ (∀ s : PipeState, moveEnabled 1 2 2 s Move.pRead = true → s.pw = 2) :=
  ⟨by decide, by decide, fun s h => by
    have := (Bool.and_eq_true _ _).mp h
    exact of_decide_eq_true this.1⟩

/-- C7: a source path with no extension makes both build and run fail
with the missing-extension message; an extension absent from the language
table makes both fail with a distinct message naming that extension; in
both cases the returned event trace is empty, so no child process was
spawned (and no command was even echoed). -/
theorem missing_language_fails_before_spawn (cfg : Config) (w : World) (fs : FS)
    (source output : Path) (stdin : Option Bytes) :
    (extension source = none →
       Config.build cfg w fs source output
           = ([], Except.error ("No extension on source file"))
       ∧ Config.run cfg w fs source output stdin
           = ([], Except.error ("No extension on source file")))
  ∧ (∀ e, extension source = some e → List.lookup e cfg.langs = none →
       Config.build cfg w fs source output
           = ([], Except.error (("No language config for extension ") ++ e))
       ∧ Config.run cfg w fs source output stdin
           = ([], Except.error (("No language config for extension ") ++ e)))
  ∧ (∀ e, ("No extension on source file")
        ≠ ("No language config for extension ") ++ e) := by
  refine ⟨fun h => ?_, fun e he hl => ?_, fun e heq => ?_⟩
  · exact ⟨by simp [Config.build, h], by simp [Config.run, h]⟩
  · exact ⟨by simp [Config.build, he, hl], by simp [Config.run, he, hl]⟩
  · have hlen := congrArg String.length heq
    rw [String.length_append] at hlen
    have h1 : ("No extension on source file").length = 27 := rfl
    have h2 : ("No language config for extension ").length = 33 := rfl
    rw [h1, h2] at hlen
    omega

theorem missing_language_fails_before_spawn_witness :
    extension ("Makefile") = none
  ∧ Config.build ⟨[], none⟩ (fun _ _ => Except.error ("unused") : World)
        (fun _ => ⟨false, none⟩) ("Makefile") ("cfb-out/Makefile")
      = ([], Except.error ("No extension on source file"))
  ∧ extension ("prog.zz") = some ("zz")
  ∧ List.lookup ("zz") (([] : List (String × LanguageConfig))) = none
  ∧ Config.run ⟨[], none⟩ (fun _ _ => Except.error ("unused") : World)
        (fun _ => ⟨false, none⟩) ("prog.zz") ("cfb-out/prog") none
      = ([], Except.error (("No language config for extension ") ++ ("zz"))) :=
  ⟨rfl,
   ((missing_language_fails_before_spawn ⟨[], none⟩
      (fun _ _ => Except.error ("unused") : World) (fun _ => ⟨false, none⟩)
      ("Makefile") ("cfb-out/Makefile") none).1 rfl).1,
   rfl, rfl,
   ((missing_language_fails_before_spawn ⟨[], none⟩
      (fun _ _ => Except.error ("unused") : World) (fun _ => ⟨false, none⟩)
      ("prog.zz") ("cfb-out/prog") none).2.1 ("zz") rfl rfl).2⟩

/-- C1: the build operation skips (emitting exactly one skip note and
executing nothing) when the cache reports the output up to date.
Otherwise, once the compile commands format successfully: when every
execution of every command succeeds, build executes each of them in their listed
order, each with no piped input, and returns success; and whenever the
command list splits as `us ++ c :: vs` with every command of `us`
succeeding and `c` failing with error `e`, build executes exactly
`us ++ [c]` in order (never reaching `vs`) and propagates `e`
unchanged. -/
theorem build_skips_or_runs_in_order (lc : LanguageConfig) (w : World) (fs : FS)
    (source output : Path) :
    (is_output_up_to_date fs source output = true →
       lc.build w fs source output = ([Event.skip], Except.ok ()))
  ∧ (is_output_up_to_date fs source output = false →
     ∀ cmds, lc.format_compile_commands source output = Except.ok cmds →
       ((∀ c ∈ cmds, (Cfb.run_command w c none).2.isOk = true) →
          lc.build w fs source output
            = (cmds.flatMap (fun c => [Event.echo c, Event.execEv c none]),
               Except.ok ()))
       ∧ (∀ us c vs e, cmds = us ++ c :: vs →
            (∀ x ∈ us, (Cfb.run_command w x none).2.isOk = true) →
            (Cfb.run_command w c none).2 = Except.error e →
            lc.build w fs source output
              = (us.flatMap (fun x => [Event.echo x, Event.execEv x none])
                   ++ (Cfb.run_command w c none).1,
                 Except.error e))) := by
  constructor
  · intro h
    simp [LanguageConfig.build, h]
  · intro h cmds hfmt
    constructor
    · intro hok
      simp [LanguageConfig.build, h, hfmt, runAll_all_ok hok]
    · intro us c vs e hsplit hus hc
      subst hsplit
      simp [LanguageConfig.build, h, hfmt, runAll_first_error hus hc]

theorem build_skips_or_runs_in_order_witness :
    is_output_up_to_date (fun _ => ⟨false, none⟩) ("a.c") ("cfb-out/a") = false
  ∧ LanguageConfig.format_compile_commands ⟨[("c1"), ("c2"), ("c3")], ("r")⟩
        ("a.c") ("cfb-out/a") = Except.ok [("c1"), ("c2"), ("c3")]
  ∧ [("c1"), ("c2"), ("c3")] = [("c1")] ++ ("c2") :: [("c3")]
  ∧ (∀ x ∈ [("c1")],
      ((Cfb.run_command
          (fun cmd _ =>
            if cmd = ("c2") then Except.ok ⟨some 1, [0x6F], [0x65]⟩
            else Except.ok ⟨some 0, [], []⟩ : World) x none).2.isOk = true))
  ∧ (Cfb.run_command
        (fun cmd _ =>
          if cmd = ("c2") then Except.ok ⟨some 1, [0x6F], [0x65]⟩
          else Except.ok ⟨some 0, [], []⟩ : World) ("c2") none).2
      = Except.error ("Command failed: `c2` (exit code Some(1))")
  ∧ LanguageConfig.build ⟨[("c1"), ("c2"), ("c3")], ("r")⟩
        (fun cmd _ =>
          if cmd = ("c2") then Except.ok ⟨some 1, [0x6F], [0x65]⟩
          else Except.ok ⟨some 0, [], []⟩ : World)
        (fun _ => ⟨false, none⟩) ("a.c") ("cfb-out/a")
      = ([Event.echo ("c1"), Event.execEv ("c1") none]
           ++ (Cfb.run_command
                (fun cmd _ =>
                  if cmd = ("c2") then Except.ok ⟨some 1, [0x6F], [0x65]⟩
                  else Except.ok ⟨some 0, [], []⟩ : World) ("c2") none).1,
         Except.error ("Command failed: `c2` (exit code Some(1))")) := by
  refine ⟨rfl, rfl, rfl, by decide, rfl, ?_⟩
  have h := (((build_skips_or_runs_in_order ⟨[("c1"), ("c2"), ("c3")], ("r")⟩
      (fun cmd _ =>
        if cmd = ("c2") then Except.ok ⟨some 1, [0x6F], [0x65]⟩
        else Except.ok ⟨some 0, [], []⟩ : World)
      (fun _ => ⟨false, none⟩) ("a.c") ("cfb-out/a")).2
      rfl [("c1"), ("c2"), ("c3")] rfl).2
      [("c1")] ("c2") [("c3")] ("Command failed: `c2` (exit code Some(1))")
      rfl (by decide) rfl)
  simpa using h

/-- C2: the run operation performs the build operation first — when
build fails, run returns exactly the build failure having produced only
the events of the build, so the run command is never executed — and when build
succeeds, run resolves the same language entry, appends the run task
banner, formats the run command template and executes it via
`run_command` with the optional input stream of the caller piped through
unchanged, returning the result of that execution (on success, the captured
combined output string). -/
theorem run_builds_then_executes (cfg : Config) (w : World) (fs : FS)
    (source output : Path) (stdin : Option Bytes) :
    (∀ e, (Config.build cfg w fs source output).2 = Except.error e →
       Config.run cfg w fs source output stdin
         = ((Config.build cfg w fs source output).1, Except.error e))
  ∧ ((Config.build cfg w fs source output).2 = Except.ok () →
       ∃ ex lc, extension source = some ex ∧ List.lookup ex cfg.langs = some lc
         ∧ Config.run cfg w fs source output stdin
             = ((Config.build cfg w fs source output).1
                  ++ Event.task ("run") source :: (lc.run w source output stdin).1,
                (lc.run w source output stdin).2)
         ∧ (∀ cmd, format_command lc.run_command source output = Except.ok cmd →
              lc.run w source output stdin = Cfb.run_command w cmd stdin)) := by
  cases hx : extension source with
  | none =>
    refine ⟨fun e he => ?_, fun hok => ?_⟩
    · simp [Config.build, hx] at he
      simp [Config.run, Config.build, hx, he]
    · simp [Config.build, hx] at hok
  | some ex =>
    cases hl : List.lookup ex cfg.langs with
    | none =>
      refine ⟨fun e he => ?_, fun hok => ?_⟩
      · simp [Config.build, hx, hl] at he
        simp [Config.run, Config.build, hx, hl, he]
      · simp [Config.build, hx, hl] at hok
    | some lc =>
      cases hb : lc.build w fs source output with
      | mk evs r =>
        cases r with
        | error e0 =>
          refine ⟨fun e he => ?_, fun hok => ?_⟩
          · simp [Config.build, hx, hl, hb] at he
            simp [Config.run, Config.build, hx, hl, hb, he]
          · simp [Config.build, hx, hl, hb] at hok
        | ok u =>
          refine ⟨fun e he => ?_, fun hok => ?_⟩
          · simp [Config.build, hx, hl, hb] at he
          · refine ⟨ex, lc, rfl, hl, ?_, ?_⟩
            · cases hr : lc.run w source output stdin with
              | mk evs2 r2 =>
                simp [Config.run, Config.build, hx, hl, hb, hr]
            · intro cmd hc
              simp [LanguageConfig.run, LanguageConfig.format_run_command, hc]

theorem run_builds_then_executes_witness :
    (Config.build cfgC wEcho fsAbsent ("x.c") ("cfb-out/x")).2 = Except.ok ()
  ∧ (∃ ex lc, extension ("x.c") = some ex
       ∧ List.lookup ex cfgC.langs = some lc
       ∧ Config.run cfgC wEcho fsAbsent ("x.c") ("cfb-out/x") (some [0x61])
           = ((Config.build cfgC wEcho fsAbsent ("x.c") ("cfb-out/x")).1
                ++ Event.task ("run") ("x.c")
                   :: (lc.run wEcho ("x.c") ("cfb-out/x") (some [0x61])).1,
              (lc.run wEcho ("x.c") ("cfb-out/x") (some [0x61])).2)
       ∧ (∀ cmd, format_command lc.run_command ("x.c") ("cfb-out/x")
              = Except.ok cmd →
            lc.run wEcho ("x.c") ("cfb-out/x") (some [0x61])
              = Cfb.run_command wEcho cmd (some [0x61]))) :=
  ⟨rfl,
   (run_builds_then_executes cfgC wEcho fsAbsent ("x.c") ("cfb-out/x")
      (some [0x61])).2 rfl⟩

theorem lookup_insertIfAbsent (m : List (String × LanguageConfig))
    (k e : String) (v : LanguageConfig) :
    List.lookup e (insertIfAbsent m k v)
      = (List.lookup e m <|> if e = k then some v else none) := by
  unfold insertIfAbsent
  by_cases hk : (List.lookup k m).isSome
  · simp [hk]
    by_cases he : e = k
    · subst he
      obtain ⟨w0, hw0⟩ := Option.isSome_iff_exists.mp hk
      simp [hw0]
    · simp [he]
  · simp [hk]
    rw [List.lookup_append]
    have : List.lookup e [(k, v)] = if e = k then some v else none := by
      simp [List.lookup]
      split <;> simp_all
    rw [this]
    cases List.lookup e m <;> simp

theorem lookup_foldl_insert (kvs : List (String × LanguageConfig))
    (acc : List (String × LanguageConfig)) (e : String) :
    List.lookup e (kvs.foldl (fun m kv => insertIfAbsent m kv.1 kv.2) acc)
      = (List.lookup e acc <|> List.lookup e kvs) := by
  induction kvs generalizing acc with
  | nil => simp
  | cons kv rest ih =>
    rw [List.foldl_cons, ih, lookup_insertIfAbsent]
    have : List.lookup e (kv :: rest)
        = ((if e = kv.1 then some kv.2 else none) <|> List.lookup e rest) := by
      obtain ⟨k0, v0⟩ := kv
      simp [List.lookup]
      split <;> simp_all
    rw [this]
    cases List.lookup e acc <;> cases List.lookup e rest <;>
      by_cases he : e = kv.1 <;> simp [he]

theorem loadConfigGo_lookup (ancestors : List AncestorConfig)
    (acc : List (String × LanguageConfig)) (ds : Option String)
    (cfg : Config) (h : loadConfigGo ancestors acc ds = Except.ok cfg)
    (e : String) :
    List.lookup e cfg.langs = (List.lookup e acc <|> firstDefinition ancestors e) := by
  induction ancestors generalizing acc ds with
  | nil =>
    simp [loadConfigGo] at h
    subst h
    simp [firstDefinition]
  | cons a rest ih =>
    cases a with
    | absent =>
      rw [loadConfigGo] at h
      rw [firstDefinition]
      exact ih acc ds h
    | malformed p => simp [loadConfigGo] at h
    | parsed c =>
      rw [loadConfigGo] at h
      rw [firstDefinition]
      have := ih _ _ h
      rw [this, lookup_foldl_insert]
      cases List.lookup e acc <;> simp

/-- C4: whenever configuration resolution succeeds, the resolved entry
for every extension is the definition from the nearest ancestor defining
it (the first-wins merge): lookup in the resolved table coincides with a
nearest-first scan of the ancestors, so the definition of a farther ancestor
never overrides a nearer one. -/
theorem resolved_lang_is_nearest (ancestors : List AncestorConfig)
    (cfg : Config) (h : load_config ancestors = Except.ok cfg) (e : String) :
    List.lookup e cfg.langs = firstDefinition ancestors e := by
  have := loadConfigGo_lookup ancestors [] none cfg h e
  simpa using this

theorem resolved_lang_is_nearest_witness :
    load_config
        [AncestorConfig.parsed ⟨[(("c"), ⟨[("near")], ("nearrun")⟩)], none⟩,
         AncestorConfig.absent,
         AncestorConfig.parsed
           ⟨[(("c"), ⟨[("far")], ("farrun")⟩), (("py"), ⟨[], ("python")⟩)], none⟩]
      = Except.ok ⟨[(("c"), ⟨[("near")], ("nearrun")⟩),
                    (("py"), ⟨[], ("python")⟩)], none⟩
  ∧ List.lookup ("c")
        (⟨[(("c"), ⟨[("near")], ("nearrun")⟩), (("py"), ⟨[], ("python")⟩)],
          none⟩ : Config).langs
      = firstDefinition
          [AncestorConfig.parsed ⟨[(("c"), ⟨[("near")], ("nearrun")⟩)], none⟩,
           AncestorConfig.absent,
           AncestorConfig.parsed
             ⟨[(("c"), ⟨[("far")], ("farrun")⟩), (("py"), ⟨[], ("python")⟩)], none⟩]
          ("c")
  ∧ firstDefinition
        [AncestorConfig.parsed ⟨[(("c"), ⟨[("near")], ("nearrun")⟩)], none⟩,
         AncestorConfig.absent,
         AncestorConfig.parsed
           ⟨[(("c"), ⟨[("far")], ("farrun")⟩), (("py"), ⟨[], ("python")⟩)], none⟩]
        ("c")
      = some ⟨[("near")], ("nearrun")⟩ :=
  ⟨rfl,
   resolved_lang_is_nearest
     [AncestorConfig.parsed ⟨[(("c"), ⟨[("near")], ("nearrun")⟩)], none⟩,
      AncestorConfig.absent,
      AncestorConfig.parsed
        ⟨[(("c"), ⟨[("far")], ("farrun")⟩), (("py"), ⟨[], ("python")⟩)], none⟩]
     ⟨[(("c"), ⟨[("near")], ("nearrun")⟩), (("py"), ⟨[], ("python")⟩)], none⟩
     rfl ("c"),
   rfl⟩

theorem scanFS_key_unknown (look : String → Option String) (ks : List Char)
    (hk : ∀ c ∈ ks, c ≠ braceC) (vs : List Char) :
    ∀ acc, look (String.mk (acc ++ ks)) = none →
      scanFS look (some acc) (ks ++ braceC :: vs) = none := by
  induction ks with
  | nil =>
    intro acc hl
    rw [List.nil_append, scanFS, if_pos rfl]
    simp only [List.append_nil] at hl
    rw [hl]
  | cons c ks ih =>
    intro acc hl
    have hc : c ≠ braceC := hk c (by simp)
    rw [List.cons_append, scanFS, if_neg hc]
    have := ih (fun x hx => hk x (by simp [hx])) (acc ++ [c]) (by simpa using hl)
    simpa using this

theorem scanFS_key_unterminated (look : String → Option String) (ks : List Char)
    (hk : ∀ c ∈ ks, c ≠ braceC) :
    ∀ acc, scanFS look (some acc) ks = none := by
  induction ks with
  | nil => intro acc; rw [scanFS]
  | cons c ks ih =>
    intro acc
    have hc : c ≠ braceC := hk c (by simp)
    rw [scanFS, if_neg hc]
    exact ih (fun x hx => hk x (by simp [hx])) (acc ++ [c])

theorem scanFS_literal_none (look : String → Option String) (us : List Char)
    (hu : ∀ c ∈ us, c ≠ braceO) (rest : List Char)
    (hrest : scanFS look none rest = none) :
    scanFS look none (us ++ rest) = none := by
  induction us with
  | nil => simpa using hrest
  | cons c us ih =>
    have hc : c ≠ braceO := hu c (by simp)
    rw [List.cons_append, scanFS, if_neg hc,
      ih (fun x hx => hu x (by simp [hx]))]

/-- C9 as amended: a template containing a placeholder with an unknown
key, or an unterminated placeholder, makes `format_command` fail — but
with the constant fatal message `Invalid format string`; the underlying
formatter error is only printed to the standard error stream, and the
returned error does not name the offending template. -/
theorem format_failure_fixed_message (source output : Path)
    (us ks vs : List Char)
    (hu : ∀ c ∈ us, c ≠ braceO) (hk : ∀ c ∈ ks, c ≠ braceC) :
    (formatLookup source output (String.mk ks) = none →
       format_command (String.mk (us ++ braceO :: ks ++ braceC :: vs))
           source output
         = Except.error ("Invalid format string"))
  ∧ format_command (String.mk (us ++ braceO :: ks)) source output
      = Except.error ("Invalid format string") := by
  constructor
  · intro hlook
    unfold format_command
    have h2 : scanFS (formatLookup source output) none
        (us ++ braceO :: (ks ++ braceC :: vs)) = none := by
      refine scanFS_literal_none _ us hu (braceO :: (ks ++ braceC :: vs)) ?_
      rw [scanFS, if_pos rfl]
      exact scanFS_key_unknown _ ks hk vs [] (by simpa using hlook)
    have h3 : (String.mk (us ++ braceO :: ks ++ braceC :: vs)).data
        = us ++ braceO :: (ks ++ braceC :: vs) := by simp
    rw [h3, h2]
  · unfold format_command
    have h2 : scanFS (formatLookup source output) none (us ++ braceO :: ks)
        = none := by
      refine scanFS_literal_none _ us hu (braceO :: ks) ?_
      rw [scanFS, if_pos rfl]
      exact scanFS_key_unterminated _ ks hk []
    rw [show (String.mk (us ++ braceO :: ks)).data = us ++ braceO :: ks from rfl,
      h2]

theorem format_failure_fixed_message_witness :
    (∀ c ∈ (("echo ").data), c ≠ braceO)
  ∧ (∀ c ∈ (("unknown").data), c ≠ braceC)
  ∧ formatLookup ("a.c") ("cfb-out/a") (String.mk (("unknown").data)) = none
  ∧ format_command
        (String.mk ((("echo ").data) ++ braceO :: (("unknown").data)
          ++ braceC :: []))
        ("a.c") ("cfb-out/a")
      = Except.error ("Invalid format string") :=
  ⟨by decide, by decide, rfl,
   (format_failure_fixed_message ("a.c") ("cfb-out/a")
      (("echo ").data) (("unknown").data) []
      (by decide) (by decide)).1 rfl⟩

/-- C9 counterexample: for the template `echo \x7bunknown\x7d` (an
unknown placeholder), formatting fails as the claim says, but the error
message is the constant `Invalid format string`: it does not contain the
offending template (nor even the placeholder key), refuting "whose
message names the offending template". -/
theorem format_error_constant_message :
    format_command ("echo {unknown}") ("a.c") ("cfb-out/a")
      = Except.error ("Invalid format string")
  ∧ ¬ ((("echo {unknown}").data) <:+: (("Invalid format string").data))
  ∧ ¬ ((("unknown").data) <:+: (("Invalid format string").data)) :=
  ⟨rfl, by decide, by decide⟩

end Cfb
